import Mathlib

set_option maxHeartbeats 1000000

/-!
Shallow embedding of the Handshaking Lemma visualizer (`src/main.py`).

The in-memory model is a networkx `Graph`; we model it as the node list in
insertion order together with the edge list in insertion order (each edge kept
in the orientation passed to `add_edge`). The sqlite `edges` table is a list of
`(source, target)` records in insertion order. UI plumbing (widgets, dialogs,
the animation's drawing) is out of scope; the observable outcome of each
operation (which dialog/log message it produces, and the state it leaves) is
modelled explicitly.
-/

/-- Undirected-equality test between edge records, as in the SQL of
`delete_edge` — `(source=u AND target=v) OR (source=v AND target=u)` — and as
networkx treats `(u, v)` and `(v, u)` as the same edge. -/
def sameEdge (e f : Int × Int) : Bool :=
  (e.1 == f.1 && e.2 == f.2) || (e.1 == f.2 && e.2 == f.1)

/-- The in-memory model `self.G = nx.Graph()`: nodes in insertion order
(networkx preserves insertion order), edges in insertion order with the
orientation in which `add_edge` received them. -/
structure Graph where
  nodes : List Int
  edgeList : List (Int × Int)
deriving Repr, DecidableEq

def Graph.empty : Graph := ⟨[], []⟩

/-- networkx `G.add_node(n)`: no-op when the node exists, else append. -/
def Graph.addNode (g : Graph) (n : Int) : Graph :=
  if n ∈ g.nodes then g else { g with nodes := g.nodes ++ [n] }

/-- networkx `G.has_edge(u, v)` (undirected). -/
def Graph.hasEdge (g : Graph) (u v : Int) : Bool :=
  g.edgeList.any (fun e => sameEdge e (u, v))

/-- networkx `G.add_edge(u, v)`: create missing endpoints (`u` first, then
`v`), then record the edge unless it is already present. -/
def Graph.addEdge (g : Graph) (u v : Int) : Graph :=
  let g1 := (g.addNode u).addNode v
  if g1.hasEdge u v then g1 else { g1 with edgeList := g1.edgeList ++ [(u, v)] }

/-- networkx `G.remove_edge(u, v)` (undirected; the app only calls it after a
positive `has_edge` check). -/
def Graph.removeEdge (g : Graph) (u v : Int) : Graph :=
  { g with edgeList := g.edgeList.filter (fun e => !(sameEdge e (u, v))) }

/-- Endpoint-incidence count of one edge record at node `n` (a self-loop
would count twice, as in networkx). -/
def edgeWeight (e : Int × Int) (n : Int) : Nat :=
  (if e.1 = n then 1 else 0) + (if e.2 = n then 1 else 0)

/-- networkx `G.degree(n)`: number of incident edge endpoints. -/
def Graph.degree (g : Graph) (n : Int) : Nat :=
  (g.edgeList.map (fun e => edgeWeight e n)).sum

/-- networkx `G.number_of_edges()`. -/
def Graph.numberOfEdges (g : Graph) : Nat := g.edgeList.length

/-- Position of node `n` in insertion order. -/
def Graph.idxOf (g : Graph) (n : Int) : Nat := g.nodes.indexOf n

/-- The orientation in which networkx `G.edges()` reports a stored edge: it
scans nodes in insertion order and yields each edge from the endpoint reached
first, so the earlier-inserted endpoint comes first. -/
def Graph.reportedEdge (g : Graph) (e : Int × Int) : Int × Int :=
  if g.idxOf e.1 ≤ g.idxOf e.2 then e else (e.2, e.1)

/-- Lexicographic order on integer pairs: Python tuple comparison, as used by
`sorted(self.G.edges())`. -/
def pairLe (a b : Int × Int) : Prop :=
  a.1 < b.1 ∨ (a.1 = b.1 ∧ a.2 ≤ b.2)

instance : DecidableRel pairLe := fun a b => by
  unfold pairLe; infer_instance

/-- `sorted(self.G.edges())`, the sequence shown in the edge listbox by
`refresh_graph` (and the `edges()` query of the spec). -/
def Graph.edgesSorted (g : Graph) : List (Int × Int) :=
  List.insertionSort pairLe (g.edgeList.map g.reportedEdge)

/-- `sorted(list(self.G.nodes()))`, as used by `refresh_graph` and
`update_node_selectors`. -/
def Graph.nodesSorted (g : Graph) : List Int :=
  List.insertionSort (· ≤ ·) g.nodes

/-- `save_edge(u, v)`: `INSERT INTO edges (source, target) VALUES (u, v)`. -/
def save_edge (db : List (Int × Int)) (u v : Int) : List (Int × Int) :=
  db ++ [(u, v)]

/-- `delete_edge(u, v)`: `DELETE FROM edges WHERE (source=u AND target=v) OR
(source=v AND target=u)`. -/
def delete_edge (db : List (Int × Int)) (u v : Int) : List (Int × Int) :=
  db.filter (fun e => !(sameEdge e (u, v)))

/-- Whether the table holds a record for the undirected pair `(u, v)` (a query
over `SELECT source, target FROM edges`). -/
def dbHas (db : List (Int × Int)) (u v : Int) : Bool :=
  db.any (fun e => sameEdge e (u, v))

/-- The application state: the graph model, the `next_node_id` counter, and
the persistent `edges` table. -/
structure AppState where
  g : Graph
  nextNodeId : Int
  db : List (Int × Int)
deriving Repr, DecidableEq

/-- `GraphApp.add_node`: insert a node with id `next_node_id`, set the counter
to `max(next_node_id, node_id + 1)`, return the id used. -/
def add_node (s : AppState) : AppState × Int :=
  let nodeId := s.nextNodeId
  ({ s with g := s.g.addNode nodeId,
            nextNodeId := max s.nextNodeId (nodeId + 1) }, nodeId)

/-- `GraphApp._finalize_add_edge` (the animation's completion callback):
re-check presence; only when absent, add the edge to the model and persist it. -/
def finalize_add_edge (s : AppState) (u v : Int) : AppState :=
  if s.g.hasEdge u v then s
  else { s with g := s.g.addEdge u v, db := save_edge s.db u v }

/-- User-visible outcome of `add_edge_from_select`: `invalidEdge` is the
"Cannot connect a node to itself" error dialog, `duplicateEdge` the
"Edge u-v already exists" info dialog, `ok` the committed addition. -/
inductive AddEdgeOutcome
  | ok
  | invalidEdge
  | duplicateEdge
deriving Repr, DecidableEq

/-- `GraphApp.add_edge_from_select` on already-parsed integers (the
presentation layer parses the entry fields): self-loop check, duplicate
check, then the animation runs and its completion commits via
`_finalize_add_edge`. -/
def add_edge_from_select (s : AppState) (u v : Int) : AppState × AddEdgeOutcome :=
  if u = v then (s, AddEdgeOutcome.invalidEdge)
  else if s.g.hasEdge u v then (s, AddEdgeOutcome.duplicateEdge)
  else (finalize_add_edge s u v, AddEdgeOutcome.ok)

/-- Outcome of `remove_selected_edge` past the selection/parse steps:
`removed` is the logged "Removed Edge u-v (removed from DB)" message;
`edgeNotFound` is the EdgeNotFound report of the spec's error taxonomy, which
no path of the source emits. -/
inductive RemoveOutcome
  | removed
  | edgeNotFound
deriving Repr, DecidableEq

/-- `GraphApp.remove_selected_edge` on already-parsed integers: remove the
edge from the model only when present, always issue the DB delete, always log
the removal message. -/
def remove_selected_edge (s : AppState) (u v : Int) : AppState × RemoveOutcome :=
  let g1 := if s.g.hasEdge u v then s.g.removeEdge u v else s.g
  ({ s with g := g1, db := delete_edge s.db u v }, RemoveOutcome.removed)

/-- The verification panel contents produced by `verify_lemma`. -/
structure VerifyResult where
  degrees : List Nat
  degreeSum : Nat
  edgeTwice : Nat
  holds : Bool
deriving Repr, DecidableEq

/-- `GraphApp.verify_lemma`: degrees in node-iteration order, their sum,
twice the edge count, and whether the two agree (`holds` selects between the
"Verified" and "Mismatch" status). -/
def verify_lemma (s : AppState) : VerifyResult :=
  let degrees := s.g.nodes.map s.g.degree
  let degreeSum := degrees.sum
  let edgeTwice := 2 * s.g.numberOfEdges
  ⟨degrees, degreeSum, edgeTwice, decide (degreeSum = edgeTwice)⟩

/-- `[n for n, d in self.G.degree() if d % 2 != 0]` in `euler_path_check`. -/
def odd_degree_nodes (s : AppState) : List Int :=
  s.g.nodes.filter (fun n => s.g.degree n % 2 != 0)

/-- Which of the three messages `euler_path_check` logs: Euler Circuit,
Euler Path, or no Euler path/circuit together with the odd-degree count. -/
inductive EulerResult
  | circuit
  | path
  | noPath (oddCount : Nat)
deriving Repr, DecidableEq

/-- `GraphApp.euler_path_check`. -/
def euler_path_check (s : AppState) : EulerResult :=
  if (odd_degree_nodes s).length = 0 then EulerResult.circuit
  else if (odd_degree_nodes s).length = 2 then EulerResult.path
  else EulerResult.noPath (odd_degree_nodes s).length

/-- `GraphApp.load_from_db`: fold the stored records into the graph via
`G.add_edge`, collect the endpoint ids, and set `next_node_id` to
`max(nodes) + 1` (or restart at 1 when there is no record). -/
def load_from_db (s : AppState) : AppState :=
  let g1 := s.db.foldl (fun g e => g.addEdge e.1 e.2) s.g
  let endpoints := s.db.map Prod.fst ++ s.db.map Prod.snd
  let nid : Int := match endpoints with
    | [] => 1
    | x :: xs => xs.foldl max x + 1
  { s with g := g1, nextNodeId := nid }

/-- `GraphApp.reset_graph`: truncate the `edges` table, clear the graph,
restart the id allocator at 1. -/
def reset_graph (_ : AppState) : AppState :=
  { g := Graph.empty, nextNodeId := 1, db := [] }

/-- The state `GraphApp.__init__` builds before calling `load_from_db`: empty
graph, `next_node_id = 1`, the `edges` table holding `db`. -/
def initState (db : List (Int × Int)) : AppState :=
  { g := Graph.empty, nextNodeId := 1, db := db }

/-- One session start: construct the app and load the persisted edges. -/
def startup (db : List (Int × Int)) : AppState :=
  load_from_db (initState db)

/-- States the application can reach, across restarts: the very first session
starts on an empty table; a later session reloads whatever the table holds;
within a session the user can add a node, issue an add-edge command (with its
self-loop/duplicate validation), have a pending animation commit an edge
(both call sites guarantee distinct endpoints), remove a selected edge, or
reset everything. -/
inductive Reach : AppState → Prop
  | boot : Reach (startup [])
  | restart {s : AppState} : Reach s → Reach (startup s.db)
  | addNode {s : AppState} : Reach s → Reach (add_node s).1
  | addEdge {s : AppState} (u v : Int) : Reach s → Reach (add_edge_from_select s u v).1
  | finalize {s : AppState} (u v : Int) (h : u ≠ v) : Reach s → Reach (finalize_add_edge s u v)
  | removeEdge {s : AppState} (u v : Int) : Reach s → Reach (remove_selected_edge s u v).1
  | reset {s : AppState} : Reach s → Reach (reset_graph s)

/-! ### Properties of `sameEdge` -/

theorem sameEdge_iff {e f : Int × Int} :
    sameEdge e f = true ↔ (e.1 = f.1 ∧ e.2 = f.2) ∨ (e.1 = f.2 ∧ e.2 = f.1) := by
  simp [sameEdge]

theorem sameEdge_refl (e : Int × Int) : sameEdge e e = true := by
  simp [sameEdge]

theorem sameEdge_swap_left (f p : Int × Int) : sameEdge (f.2, f.1) p = sameEdge f p := by
  simp only [sameEdge]
  cases ha : (f.1 == p.1) <;> cases hb : (f.2 == p.2) <;>
    cases hc : (f.1 == p.2) <;> cases hd : (f.2 == p.1) <;> rfl

theorem sameEdge_swap_right (e p : Int × Int) : sameEdge e (p.2, p.1) = sameEdge e p := by
  simp only [sameEdge]
  cases ha : (e.1 == p.1) <;> cases hb : (e.2 == p.2) <;>
    cases hc : (e.1 == p.2) <;> cases hd : (e.2 == p.1) <;> rfl

theorem sameEdge_comm (e f : Int × Int) : sameEdge e f = sameEdge f e := by
  simp only [sameEdge]
  cases ha : (e.1 == f.1) <;> cases hb : (e.2 == f.2) <;>
    cases hc : (e.1 == f.2) <;> cases hd : (e.2 == f.1) <;>
    simp_all [beq_iff_eq] <;> omega

theorem sameEdge_congr_left {e f : Int × Int} (h : sameEdge e f = true) (p : Int × Int) :
    sameEdge e p = sameEdge f p := by
  rcases sameEdge_iff.1 h with ⟨h1, h2⟩ | ⟨h1, h2⟩
  · have : e = f := Prod.ext h1 h2
    rw [this]
  · have : e = (f.2, f.1) := Prod.ext h1 h2
    rw [this, sameEdge_swap_left]

/-! ### Basic facts about the graph operations -/

theorem Graph.addNode_edgeList (g : Graph) (n : Int) :
    (g.addNode n).edgeList = g.edgeList := by
  unfold Graph.addNode; split <;> rfl

theorem Graph.mem_addNode_nodes {g : Graph} {m : Int} (n : Int) :
    m ∈ (g.addNode n).nodes ↔ m ∈ g.nodes ∨ m = n := by
  unfold Graph.addNode
  split
  · rename_i h
    constructor
    · exact fun hm => Or.inl hm
    · rintro (hm | rfl)
      · exact hm
      · exact h
  · simp [List.mem_append]

theorem Graph.addNode_nodup {g : Graph} (h : g.nodes.Nodup) (n : Int) :
    (g.addNode n).nodes.Nodup := by
  unfold Graph.addNode
  split
  · exact h
  · rename_i hn
    simpa [List.nodup_append] using ⟨h, hn⟩

theorem Graph.hasEdge_eq_any (g : Graph) (u v : Int) :
    g.hasEdge u v = g.edgeList.any (fun e => sameEdge e (u, v)) := rfl

theorem Graph.hasEdge_iff {g : Graph} {u v : Int} :
    g.hasEdge u v = true ↔ ∃ e ∈ g.edgeList, sameEdge e (u, v) = true := by
  simp [Graph.hasEdge]

theorem Graph.hasEdge_addNode (g : Graph) (n u v : Int) :
    (g.addNode n).hasEdge u v = g.hasEdge u v := by
  simp [Graph.hasEdge, Graph.addNode_edgeList]

theorem Graph.hasEdge_symm (g : Graph) (u v : Int) :
    g.hasEdge v u = g.hasEdge u v := by
  unfold Graph.hasEdge
  congr 1
  funext e
  have := sameEdge_swap_right e (u, v)
  simpa using this

theorem Graph.addEdge_edgeList (g : Graph) (u v : Int) :
    (g.addEdge u v).edgeList =
      if g.hasEdge u v then g.edgeList else g.edgeList ++ [(u, v)] := by
  simp only [Graph.addEdge, Graph.hasEdge_addNode]
  split <;> simp [Graph.addNode_edgeList]

theorem Graph.addEdge_nodes_eq (g : Graph) (u v : Int) :
    (g.addEdge u v).nodes = ((g.addNode u).addNode v).nodes := by
  simp only [Graph.addEdge]
  split <;> rfl

theorem Graph.mem_addEdge_nodes {g : Graph} {m : Int} (u v : Int) :
    m ∈ (g.addEdge u v).nodes ↔ m ∈ g.nodes ∨ m = u ∨ m = v := by
  rw [Graph.addEdge_nodes_eq]
  simp only [Graph.mem_addNode_nodes, or_assoc]

theorem Graph.addEdge_nodup {g : Graph} (h : g.nodes.Nodup) (u v : Int) :
    (g.addEdge u v).nodes.Nodup := by
  rw [Graph.addEdge_nodes_eq]
  exact Graph.addNode_nodup (Graph.addNode_nodup h u) v

theorem Graph.mem_edgeList_addEdge {g : Graph} {e : Int × Int} {u v : Int}
    (h : e ∈ (g.addEdge u v).edgeList) : e ∈ g.edgeList ∨ e = (u, v) := by
  rw [Graph.addEdge_edgeList] at h
  split at h
  · exact Or.inl h
  · simpa [List.mem_append] using h

theorem Graph.hasEdge_addEdge (g : Graph) (u v a b : Int) :
    (g.addEdge u v).hasEdge a b = (g.hasEdge a b || sameEdge (u, v) (a, b)) := by
  rw [Bool.eq_iff_iff]
  unfold Graph.hasEdge
  rw [Graph.addEdge_edgeList]
  split
  · rename_i hpres
    simp only [List.any_eq_true, Bool.or_eq_true]
    constructor
    · exact fun h => Or.inl h
    · rintro (h | h)
      · exact h
      · rcases Graph.hasEdge_iff.1 hpres with ⟨e, he, hsame⟩
        exact ⟨e, he, by rw [sameEdge_congr_left hsame (a, b)]; exact h⟩
  · simp [List.any_append]

/-- Filtering out the records that match `(u, v)` and then asking for a match
of `(a, b)` is asking for a match of `(a, b)` with `(a, b)` itself not matching
`(u, v)`. -/
theorem any_same_filter (l : List (Int × Int)) (u v a b : Int) :
    ((l.filter (fun e => !(sameEdge e (u, v)))).any (fun e => sameEdge e (a, b)))
      = (l.any (fun e => sameEdge e (a, b)) && !(sameEdge (a, b) (u, v))) := by
  induction l with
  | nil => simp
  | cons e l ih =>
    by_cases huv : sameEdge e (u, v) = true
    · have hab : sameEdge e (a, b) = true → sameEdge (a, b) (u, v) = true := by
        intro h
        rw [← sameEdge_congr_left h (u, v)]
        exact huv
      simp only [List.filter_cons, List.any_cons, huv]
      cases hcase : sameEdge e (a, b) with
      | false => simpa [hcase] using ih
      | true => simp [hab hcase, ih]
    · have huv' : sameEdge e (u, v) = false := by
        cases h : sameEdge e (u, v)
        · rfl
        · exact absurd h huv
      by_cases hab : sameEdge e (a, b) = true
      · have : sameEdge (a, b) (u, v) = false := by
          cases h : sameEdge (a, b) (u, v)
          · rfl
          · exact absurd (by rw [sameEdge_congr_left hab]; exact h) huv
        simp [List.filter_cons, List.any_cons, huv', hab, this]
      · have hab' : sameEdge e (a, b) = false := by
          cases h : sameEdge e (a, b)
          · rfl
          · exact absurd h hab
        simp [List.filter_cons, List.any_cons, huv', hab', ih]

theorem Graph.hasEdge_removeEdge (g : Graph) (u v a b : Int) :
    (g.removeEdge u v).hasEdge a b
      = (g.hasEdge a b && !(sameEdge (a, b) (u, v))) := by
  unfold Graph.removeEdge Graph.hasEdge
  exact any_same_filter g.edgeList u v a b

theorem dbHas_delete_edge (db : List (Int × Int)) (u v a b : Int) :
    dbHas (delete_edge db u v) a b = (dbHas db a b && !(sameEdge (a, b) (u, v))) := by
  unfold dbHas delete_edge
  exact any_same_filter db u v a b

theorem dbHas_save_edge (db : List (Int × Int)) (u v a b : Int) :
    dbHas (save_edge db u v) a b = (dbHas db a b || sameEdge (u, v) (a, b)) := by
  simp [dbHas, save_edge, List.any_append]

/-! ### The model invariant and its preservation -/

/-- Structural invariant of the in-memory graph: node ids are unique, every
edge endpoint is a node, and no edge is a self-loop. -/
structure GInv (g : Graph) : Prop where
  nodup : g.nodes.Nodup
  ends : ∀ e ∈ g.edgeList, e.1 ∈ g.nodes ∧ e.2 ∈ g.nodes
  noloop : ∀ e ∈ g.edgeList, e.1 ≠ e.2

theorem ginv_empty : GInv Graph.empty :=
  ⟨List.nodup_nil, by simp [Graph.empty], by simp [Graph.empty]⟩

theorem ginv_addNode {g : Graph} (h : GInv g) (n : Int) : GInv (g.addNode n) := by
  refine ⟨Graph.addNode_nodup h.nodup n, ?_, ?_⟩
  · intro e he
    rw [Graph.addNode_edgeList] at he
    rcases h.ends e he with ⟨h1, h2⟩
    exact ⟨(Graph.mem_addNode_nodes n).2 (Or.inl h1), (Graph.mem_addNode_nodes n).2 (Or.inl h2)⟩
  · intro e he
    rw [Graph.addNode_edgeList] at he
    exact h.noloop e he

theorem ginv_addEdge {g : Graph} (h : GInv g) {u v : Int} (huv : u ≠ v) :
    GInv (g.addEdge u v) := by
  refine ⟨Graph.addEdge_nodup h.nodup u v, ?_, ?_⟩
  · intro e he
    rcases Graph.mem_edgeList_addEdge he with he' | rfl
    · rcases h.ends e he' with ⟨h1, h2⟩
      exact ⟨(Graph.mem_addEdge_nodes u v).2 (Or.inl h1),
             (Graph.mem_addEdge_nodes u v).2 (Or.inl h2)⟩
    · exact ⟨(Graph.mem_addEdge_nodes u v).2 (Or.inr (Or.inl rfl)),
             (Graph.mem_addEdge_nodes u v).2 (Or.inr (Or.inr rfl))⟩
  · intro e he
    rcases Graph.mem_edgeList_addEdge he with he' | rfl
    · exact h.noloop e he'
    · exact huv

theorem ginv_removeEdge {g : Graph} (h : GInv g) (u v : Int) :
    GInv (g.removeEdge u v) := by
  refine ⟨h.nodup, ?_, ?_⟩
  · intro e he
    exact h.ends e (List.mem_of_mem_filter he)
  · intro e he
    exact h.noloop e (List.mem_of_mem_filter he)

theorem ginv_foldl_addEdge (db : List (Int × Int)) (g : Graph) (h : GInv g)
    (hdb : ∀ e ∈ db, e.1 ≠ e.2) :
    GInv (db.foldl (fun g e => g.addEdge e.1 e.2) g) := by
  induction db generalizing g with
  | nil => exact h
  | cons e db ih =>
    exact ih _ (ginv_addEdge h (hdb e (by simp))) (fun f hf => hdb f (by simp [hf]))

theorem hasEdge_foldl_addEdge (db : List (Int × Int)) (g : Graph) (a b : Int) :
    (db.foldl (fun g e => g.addEdge e.1 e.2) g).hasEdge a b
      = (g.hasEdge a b || dbHas db a b) := by
  induction db generalizing g with
  | nil => simp [dbHas]
  | cons e db ih =>
    simp only [List.foldl_cons, ih, Graph.hasEdge_addEdge, dbHas, List.any_cons,
      Prod.mk.eta, Bool.or_assoc]

theorem mem_nodes_foldl_addEdge (db : List (Int × Int)) (g : Graph) (n : Int) :
    n ∈ (db.foldl (fun g e => g.addEdge e.1 e.2) g).nodes
      ↔ n ∈ g.nodes ∨ ∃ e ∈ db, e.1 = n ∨ e.2 = n := by
  induction db generalizing g with
  | nil => simp
  | cons e db ih =>
    simp only [List.foldl_cons, ih, Graph.mem_addEdge_nodes, List.mem_cons]
    constructor
    · rintro ((hg | rfl | rfl) | ⟨f, hf, hfn⟩)
      · exact Or.inl hg
      · exact Or.inr ⟨e, Or.inl rfl, Or.inl rfl⟩
      · exact Or.inr ⟨e, Or.inl rfl, Or.inr rfl⟩
      · exact Or.inr ⟨f, Or.inr hf, hfn⟩
    · rintro (hg | ⟨f, rfl | hf, hfn⟩)
      · exact Or.inl (Or.inl hg)
      · rcases hfn with rfl | rfl
        · exact Or.inl (Or.inr (Or.inl rfl))
        · exact Or.inl (Or.inr (Or.inr rfl))
      · exact Or.inr ⟨f, hf, hfn⟩

/-- Invariant of the whole application state: the graph invariant, agreement
between the model's edge set and the persisted table (as sets of undirected
pairs), and a loop-free table. -/
structure AppInv (s : AppState) : Prop where
  ginv : GInv s.g
  sync : ∀ u v : Int, s.g.hasEdge u v = dbHas s.db u v
  dbloop : ∀ e ∈ s.db, e.1 ≠ e.2

theorem inv_startup (db : List (Int × Int)) (hdb : ∀ e ∈ db, e.1 ≠ e.2) :
    AppInv (startup db) := by
  refine ⟨ginv_foldl_addEdge db Graph.empty ginv_empty hdb, ?_, hdb⟩
  intro u v
  show (db.foldl (fun g e => g.addEdge e.1 e.2) Graph.empty).hasEdge u v = dbHas db u v
  rw [hasEdge_foldl_addEdge]
  rfl

theorem inv_add_node {s : AppState} (h : AppInv s) : AppInv (add_node s).1 := by
  refine ⟨ginv_addNode h.ginv _, ?_, h.dbloop⟩
  intro u v
  show (s.g.addNode s.nextNodeId).hasEdge u v = dbHas s.db u v
  rw [Graph.hasEdge_addNode]
  exact h.sync u v

theorem inv_finalize {s : AppState} (u v : Int) (huv : u ≠ v) (h : AppInv s) :
    AppInv (finalize_add_edge s u v) := by
  unfold finalize_add_edge
  split
  · exact h
  · refine ⟨ginv_addEdge h.ginv huv, ?_, ?_⟩
    · intro a b
      show (s.g.addEdge u v).hasEdge a b = dbHas (save_edge s.db u v) a b
      rw [Graph.hasEdge_addEdge, dbHas_save_edge, h.sync a b]
    · intro e he
      rcases List.mem_append.1 he with he' | he'
      · exact h.dbloop e he'
      · rw [List.mem_singleton] at he'
        subst he'
        exact huv

theorem inv_add_edge_from_select {s : AppState} (u v : Int) (h : AppInv s) :
    AppInv (add_edge_from_select s u v).1 := by
  unfold add_edge_from_select
  split
  · exact h
  · split
    · exact h
    · rename_i hne _
      exact inv_finalize u v hne h

theorem inv_remove_selected_edge {s : AppState} (u v : Int) (h : AppInv s) :
    AppInv (remove_selected_edge s u v).1 := by
  refine ⟨?_, ?_, ?_⟩
  · show GInv (if s.g.hasEdge u v then s.g.removeEdge u v else s.g)
    split
    · exact ginv_removeEdge h.ginv u v
    · exact h.ginv
  · intro a b
    show (if s.g.hasEdge u v then s.g.removeEdge u v else s.g).hasEdge a b
        = dbHas (delete_edge s.db u v) a b
    rw [dbHas_delete_edge, ← h.sync a b]
    split
    · rw [Graph.hasEdge_removeEdge]
    · rename_i hne
      cases hab : s.g.hasEdge a b with
      | false => simp
      | true =>
        have hse : sameEdge (a, b) (u, v) = false := by
          cases hse : sameEdge (a, b) (u, v) with
          | false => rfl
          | true =>
            exfalso
            apply hne
            rcases Graph.hasEdge_iff.1 hab with ⟨e, he, hsame⟩
            exact Graph.hasEdge_iff.2
              ⟨e, he, by rw [sameEdge_congr_left hsame (u, v)]; exact hse⟩
        simp [hse]
  · intro e he
    exact h.dbloop e (List.mem_of_mem_filter he)

theorem inv_reset (s : AppState) : AppInv (reset_graph s) := by
  refine ⟨ginv_empty, ?_, ?_⟩
  · intro u v
    rfl
  · intro e he
    simp [reset_graph] at he

/-- Every reachable application state satisfies the invariant. -/
theorem reach_inv {s : AppState} (h : Reach s) : AppInv s := by
  induction h with
  | boot => exact inv_startup [] (by simp)
  | restart _ ih => exact inv_startup _ ih.dbloop
  | addNode _ ih => exact inv_add_node ih
  | addEdge u v _ ih => exact inv_add_edge_from_select u v ih
  | finalize u v huv _ ih => exact inv_finalize u v huv ih
  | removeEdge u v _ ih => exact inv_remove_selected_edge u v ih
  | reset _ _ => exact inv_reset _

/-! ### The degree-sum identity -/

theorem sum_map_add_nat {α : Type} (l : List α) (f g : α → Nat) :
    (l.map (fun x => f x + g x)).sum = (l.map f).sum + (l.map g).sum := by
  induction l with
  | nil => rfl
  | cons a l ih =>
    simp only [List.map_cons, List.sum_cons, ih]
    omega

theorem sum_indicator_eq_count (l : List Int) (a : Int) :
    (l.map (fun n => if a = n then 1 else 0)).sum = l.count a := by
  induction l with
  | nil => rfl
  | cons b l ih =>
    simp only [List.map_cons, List.sum_cons, List.count_cons, ih, beq_iff_eq]
    by_cases h : a = b
    · subst h
      simp
      omega
    · simp [h, Ne.symm h]

theorem sum_edgeWeight (nodes : List Int) (e : Int × Int) :
    (nodes.map (edgeWeight e)).sum = nodes.count e.1 + nodes.count e.2 := by
  have : nodes.map (edgeWeight e)
      = nodes.map (fun n => (if e.1 = n then 1 else 0) + (if e.2 = n then 1 else 0)) := rfl
  rw [this, sum_map_add_nat, sum_indicator_eq_count, sum_indicator_eq_count]

/-- Core of the Handshaking Lemma, over raw lists: when node ids are unique
and every edge endpoint is listed, the endpoint-incidence counts sum to twice
the number of edges. -/
theorem handshake_core (nodes : List Int) (edges : List (Int × Int))
    (hnd : nodes.Nodup) (hend : ∀ e ∈ edges, e.1 ∈ nodes ∧ e.2 ∈ nodes) :
    (nodes.map (fun n => (edges.map (fun e => edgeWeight e n)).sum)).sum
      = 2 * edges.length := by
  induction edges with
  | nil => simp
  | cons e es ih =>
    have hmap : nodes.map (fun n => ((e :: es).map (fun f => edgeWeight f n)).sum)
        = nodes.map (fun n => edgeWeight e n + (es.map (fun f => edgeWeight f n)).sum) := by
      simp
    rw [hmap, sum_map_add_nat, sum_edgeWeight,
        ih (fun f hf => hend f (List.mem_cons_of_mem e hf))]
    rcases hend e (List.mem_cons_self e es) with ⟨h1, h2⟩
    rw [List.count_eq_one_of_mem hnd h1, List.count_eq_one_of_mem hnd h2]
    simp [List.length_cons]
    omega

/-- The Handshaking Lemma for any graph satisfying the structural invariant. -/
theorem graph_degree_sum {g : Graph} (h : GInv g) :
    (g.nodes.map g.degree).sum = 2 * g.numberOfEdges := by
  have : g.nodes.map g.degree
      = g.nodes.map (fun n => (g.edgeList.map (fun e => edgeWeight e n)).sum) := rfl
  rw [this, handshake_core g.nodes g.edgeList h.nodup h.ends]
  rfl

/-! ### Concrete sessions used as examples -/

/-- Fresh first session, then the user types edge 1-2. -/
def s12 : AppState := (add_edge_from_select (startup []) 1 2).1

/-- Triangle: fresh session, edges 1-2, 2-3, 3-1. -/
def sTri : AppState :=
  (add_edge_from_select (add_edge_from_select (add_edge_from_select
    (startup []) 1 2).1 2 3).1 3 1).1

/-- Path graph 1-2-3: fresh session, edges 1-2, 2-3. -/
def sPath3 : AppState :=
  (add_edge_from_select (add_edge_from_select (startup []) 1 2).1 2 3).1

/-- Star with center 1 and leaves 2, 3, 4. -/
def sStar : AppState :=
  (add_edge_from_select (add_edge_from_select (add_edge_from_select
    (startup []) 1 2).1 1 3).1 1 4).1

/-- Fresh session, then the user types edge 5-2 (node 5 inserted first). -/
def s52 : AppState := (add_edge_from_select (startup []) 5 2).1

theorem reach_s12 : Reach s12 := Reach.addEdge 1 2 Reach.boot

theorem reach_sTri : Reach sTri :=
  Reach.addEdge 3 1 (Reach.addEdge 2 3 (Reach.addEdge 1 2 Reach.boot))

theorem reach_sPath3 : Reach sPath3 :=
  Reach.addEdge 2 3 (Reach.addEdge 1 2 Reach.boot)

theorem reach_sStar : Reach sStar :=
  Reach.addEdge 1 4 (Reach.addEdge 1 3 (Reach.addEdge 1 2 Reach.boot))

theorem reach_s52 : Reach s52 := Reach.addEdge 5 2 Reach.boot

instance : IsTrans (Int × Int) pairLe := by
  constructor
  intro a b c hab hbc
  unfold pairLe at *
  omega

instance : IsTotal (Int × Int) pairLe := by
  constructor
  intro a b
  unfold pairLe
  omega

/-! ### Claim theorems -/

/-- C1: in every reachable state the sum of all node degrees equals twice the
number of edges, so `verify_lemma` reports `holds = true` ("Verified"). -/
theorem c1_handshaking_reachable (s : AppState) (h : Reach s) :
    (verify_lemma s).degreeSum = 2 * s.g.numberOfEdges ∧
    (verify_lemma s).edgeTwice = 2 * s.g.numberOfEdges ∧
    (verify_lemma s).holds = true := by
  have hsum : (s.g.nodes.map s.g.degree).sum = 2 * s.g.numberOfEdges :=
    graph_degree_sum (reach_inv h).ginv
  refine ⟨hsum, rfl, ?_⟩
  show decide ((s.g.nodes.map s.g.degree).sum = 2 * s.g.numberOfEdges) = true
  exact decide_eq_true hsum

/-- Witness for C1: the triangle session. -/
theorem c1_handshaking_reachable_witness :
    (verify_lemma sTri).degreeSum = 2 * sTri.g.numberOfEdges ∧
    (verify_lemma sTri).edgeTwice = 2 * sTri.g.numberOfEdges ∧
    (verify_lemma sTri).holds = true :=
  c1_handshaking_reachable sTri
    (Reach.addEdge 3 1 (Reach.addEdge 2 3 (Reach.addEdge 1 2 Reach.boot)))

/-- The table contents after persisting (1,2), (2,3), (3,1) via `save_edge`. -/
def db3 : List (Int × Int) := save_edge (save_edge (save_edge [] 1 2) 2 3) 3 1

/-- C2: reloading a fresh model from the store reconstructs exactly the
persisted edges (as undirected pairs) and their endpoints as nodes; in
particular persisting (1,2), (2,3), (3,1) and restarting yields exactly nodes
1, 2, 3 and the order-normalized edges (1,2), (2,3), (1,3). -/
theorem c2_roundtrip :
    (∀ db : List (Int × Int),
        (∀ a b : Int, (startup db).g.hasEdge a b = dbHas db a b) ∧
        (∀ n : Int, n ∈ (startup db).g.nodes ↔ ∃ e ∈ db, e.1 = n ∨ e.2 = n)) ∧
    (startup db3).g.nodesSorted = [1, 2, 3] ∧
    (startup db3).g.edgesSorted = [(1, 2), (1, 3), (2, 3)] := by
  refine ⟨fun db => ⟨fun a b => ?_, fun n => ?_⟩, by decide, by decide⟩
  · show (db.foldl (fun g e => g.addEdge e.1 e.2) Graph.empty).hasEdge a b = dbHas db a b
    rw [hasEdge_foldl_addEdge]
    rfl
  · show n ∈ (db.foldl (fun g e => g.addEdge e.1 e.2) Graph.empty).nodes ↔
        ∃ e ∈ db, e.1 = n ∨ e.2 = n
    rw [mem_nodes_foldl_addEdge]
    simp [Graph.empty]

/-- C4: an add-edge request with both endpoints equal is rejected with the
self-loop error and the whole state (model and store) is unchanged. -/
theorem c4_selfloop_rejected (s : AppState) (u : Int) :
    add_edge_from_select s u u = (s, AddEdgeOutcome.invalidEdge) := by
  simp [add_edge_from_select]

/-- C5: when the edge (u, v) is present, asking to add (v, u) is rejected as a
duplicate and the whole state (model and store) is unchanged. -/
theorem c5_reversed_duplicate (s : AppState) (u v : Int) (hne : u ≠ v)
    (h : s.g.hasEdge u v = true) :
    add_edge_from_select s v u = (s, AddEdgeOutcome.duplicateEdge) := by
  have h' : s.g.hasEdge v u = true := by
    rw [Graph.hasEdge_symm]
    exact h
  have hne' : ¬(v = u) := fun hvu => hne hvu.symm
  simp [add_edge_from_select, hne', h']

/-- Witness for C5: after adding edge 1-2, adding 2-1 is a duplicate no-op. -/
theorem c5_reversed_duplicate_witness :
    add_edge_from_select s12 2 1 = (s12, AddEdgeOutcome.duplicateEdge) :=
  c5_reversed_duplicate s12 1 2 (by decide) (by decide)

/-- C3 counterexample: the 3-leaf star (center 1, leaves 2, 3, 4) has FOUR
odd-degree nodes — the center (degree 3) and the three leaves (degree 1) —
so `euler_path_check` reports odd-count 4, not 3 as the claim states. -/
theorem c3_counterexample :
    sStar.g.nodesSorted = [1, 2, 3, 4] ∧
    sStar.g.degree 1 = 3 ∧ sStar.g.degree 2 = 1 ∧
    sStar.g.degree 3 = 1 ∧ sStar.g.degree 4 = 1 ∧
    euler_path_check sStar = EulerResult.noPath 4 ∧
    euler_path_check sStar ≠ EulerResult.noPath 3 := by
  decide

/-- C3 amended: the classification depends only on the odd-degree count —
Circuit iff it is 0, Path iff it is 2, otherwise "no path" with the count; a
triangle yields Circuit, the path 1-2-3 yields Path, and a 3-leaf star yields
"no path" with odd-count 4 (not 3). -/
theorem c3_euler_classification :
    (∀ s : AppState,
      (euler_path_check s = EulerResult.circuit ↔ (odd_degree_nodes s).length = 0) ∧
      (euler_path_check s = EulerResult.path ↔ (odd_degree_nodes s).length = 2) ∧
      (∀ k : Nat, euler_path_check s = EulerResult.noPath k ↔
          ((odd_degree_nodes s).length = k ∧ k ≠ 0 ∧ k ≠ 2))) ∧
    euler_path_check sTri = EulerResult.circuit ∧
    euler_path_check sPath3 = EulerResult.path ∧
    euler_path_check sStar = EulerResult.noPath 4 := by
  refine ⟨fun s => ?_, by decide, by decide, by decide⟩
  unfold euler_path_check
  split
  · rename_i h0
    refine ⟨by simp [h0], by simp [h0], fun k => ?_⟩
    simp only [h0]
    constructor
    · intro hk
      cases hk
    · rintro ⟨rfl, hk0, _⟩
      exact absurd rfl hk0
  · split
    · rename_i h0 h2
      refine ⟨by simp [h0], by simp [h2], fun k => ?_⟩
      constructor
      · intro hk
        cases hk
      · rintro ⟨rfl, _, hk2⟩
        exact absurd h2 hk2
    · rename_i h0 h2
      refine ⟨by simp [h0], by simp [h2], fun k => ?_⟩
      constructor
      · intro hk
        cases hk
        exact ⟨rfl, h0, h2⟩
      · rintro ⟨rfl, _, _⟩
        rfl

/-- C6 counterexample: removing the absent edge (2, 3) in a reachable state
does not report EdgeNotFound — the operation logs the removal message while
leaving both the model and the store unchanged. -/
theorem c6_counterexample :
    s12.g.hasEdge 2 3 = false ∧
    remove_selected_edge s12 2 3 = (s12, RemoveOutcome.removed) ∧
    RemoveOutcome.removed ≠ RemoveOutcome.edgeNotFound := by
  decide

/-- C6 amended: removing a pair that is not an edge leaves the model and (in
every reachable state) the store unchanged, but no EdgeNotFound error is
reported: the operation logs the removal message regardless. -/
theorem c6_remove_absent (s : AppState) (u v : Int) (hr : Reach s)
    (h : s.g.hasEdge u v = false) :
    remove_selected_edge s u v = (s, RemoveOutcome.removed) := by
  have hdb : dbHas s.db u v = false := by
    rw [← (reach_inv hr).sync u v]
    exact h
  have hg : (if s.g.hasEdge u v then s.g.removeEdge u v else s.g) = s.g := by
    simp [h]
  have hdel : delete_edge s.db u v = s.db := by
    apply List.filter_eq_self.2
    intro e he
    have hse : sameEdge e (u, v) = false := by
      cases hse : sameEdge e (u, v) with
      | false => rfl
      | true =>
        exfalso
        have : dbHas s.db u v = true := by
          unfold dbHas
          rw [List.any_eq_true]
          exact ⟨e, he, hse⟩
        rw [hdb] at this
        cases this
    simp [hse]
  simp only [remove_selected_edge]
  rw [hg, hdel]

/-- Witness for C6 (amended): removing the absent edge (3, 4) after the 1-2
session is a logged no-op. -/
theorem c6_remove_absent_witness :
    remove_selected_edge s12 3 4 = (s12, RemoveOutcome.removed) :=
  c6_remove_absent s12 3 4 (Reach.addEdge 1 2 Reach.boot) (by decide)

/-- C7 counterexample: after typing edge 1-2 in a fresh session the nodes 1
and 2 exist but `next_node_id` is still 1, so `add_node` hands out id 1,
which is already in use: the node set does not change and the "new" node has
degree 1, not 0. -/
theorem c7_counterexample :
    Reach s12 ∧
    s12.nextNodeId = 1 ∧
    (add_node s12).2 = 1 ∧
    ((1 : Int) ∈ s12.g.nodes) ∧
    (add_node s12).1.g = s12.g ∧
    s12.g.degree 1 = 1 :=
  ⟨reach_s12, by decide, by decide, by decide, by decide, by decide⟩

/-- C7 amended: `add_node` never fails — it always returns `next_node_id` and
bumps the counter — and whenever that id is not already a node (which holds
when nodes were only ever created by `add_node`, by the startup load, or
after a reset, but can fail after implicit creation through caller-typed edge
endpoints) the node is inserted isolated, with degree 0 and no edge change. -/
theorem c7_add_node_fresh (s : AppState) (hr : Reach s)
    (h : s.nextNodeId ∉ s.g.nodes) :
    (add_node s).2 = s.nextNodeId ∧
    (add_node s).1.nextNodeId = s.nextNodeId + 1 ∧
    (add_node s).1.g.nodes = s.g.nodes ++ [s.nextNodeId] ∧
    (add_node s).1.g.edgeList = s.g.edgeList ∧
    (add_node s).1.db = s.db ∧
    (add_node s).1.g.degree s.nextNodeId = 0 := by
  refine ⟨rfl, ?_, ?_, Graph.addNode_edgeList s.g s.nextNodeId, rfl, ?_⟩
  · show max s.nextNodeId (s.nextNodeId + 1) = s.nextNodeId + 1
    exact max_eq_right (by omega)
  · show (s.g.addNode s.nextNodeId).nodes = s.g.nodes ++ [s.nextNodeId]
    unfold Graph.addNode
    rw [if_neg h]
  · show (s.g.addNode s.nextNodeId).degree s.nextNodeId = 0
    have hends := (reach_inv hr).ginv.ends
    unfold Graph.degree
    rw [Graph.addNode_edgeList]
    apply List.sum_eq_zero
    intro x hx
    rcases List.mem_map.1 hx with ⟨e, he, rfl⟩
    rcases hends e he with ⟨h1, h2⟩
    have hne1 : ¬(e.1 = s.nextNodeId) := fun heq => h (heq ▸ h1)
    have hne2 : ¬(e.2 = s.nextNodeId) := fun heq => h (heq ▸ h2)
    simp [edgeWeight, hne1, hne2]

/-- Witness for C7 (amended): the very first `add_node` of a fresh session. -/
theorem c7_add_node_fresh_witness :
    (add_node (startup [])).2 = (startup []).nextNodeId ∧
    (add_node (startup [])).1.nextNodeId = (startup []).nextNodeId + 1 ∧
    (add_node (startup [])).1.g.nodes = (startup []).g.nodes ++ [(startup []).nextNodeId] ∧
    (add_node (startup [])).1.g.edgeList = (startup []).g.edgeList ∧
    (add_node (startup [])).1.db = (startup []).db ∧
    (add_node (startup [])).1.g.degree (startup []).nextNodeId = 0 :=
  c7_add_node_fresh (startup []) Reach.boot (by decide)

/-- C8: no reachable state contains a self-loop edge. -/
theorem c8_no_selfloop (s : AppState) (h : Reach s) :
    ∀ e ∈ s.g.edgeList, e.1 ≠ e.2 :=
  (reach_inv h).ginv.noloop

/-- Witness for C8: the edge stored by the 1-2 session. -/
theorem c8_no_selfloop_witness :
    ((1, 2) : Int × Int).1 ≠ ((1, 2) : Int × Int).2 :=
  c8_no_selfloop s12 reach_s12 (1, 2) (by decide)

/-- C9 counterexample: after typing edge 5-2 in a fresh session, the edge
list shows the pair (5, 2) — sorted ascending as tuples, but not normalized
to u < v as the claim states. -/
theorem c9_counterexample :
    Reach s52 ∧
    s52.g.edgesSorted = [(5, 2)] ∧
    ¬((5 : Int) < 2) :=
  ⟨reach_s52, by decide, by decide⟩

/-- C9 amended: `edges()` is sorted ascending by `(u, v)` (lexicographic
tuple order) and enumerates exactly the undirected edge set, but each pair is
oriented with the earlier-inserted endpoint first, not necessarily with
u < v. -/
theorem c9_edges_sorted (g : Graph) :
    List.Sorted pairLe g.edgesSorted ∧
    (∀ p ∈ g.edgesSorted, g.idxOf p.1 ≤ g.idxOf p.2) ∧
    (∀ a b : Int, g.hasEdge a b = true ↔
        ∃ p ∈ g.edgesSorted, sameEdge p (a, b) = true) := by
  refine ⟨List.sorted_insertionSort pairLe _, fun p hp => ?_, fun a b => ?_⟩
  · rw [Graph.edgesSorted, List.mem_insertionSort] at hp
    rcases List.mem_map.1 hp with ⟨e, he, rfl⟩
    unfold Graph.reportedEdge
    split
    · rename_i hle
      exact hle
    · rename_i hgt
      show g.idxOf e.2 ≤ g.idxOf e.1
      omega
  · constructor
    · intro h
      rcases Graph.hasEdge_iff.1 h with ⟨e, he, hse⟩
      refine ⟨g.reportedEdge e, ?_, ?_⟩
      · rw [Graph.edgesSorted, List.mem_insertionSort]
        exact List.mem_map.2 ⟨e, he, rfl⟩
      · unfold Graph.reportedEdge
        split
        · exact hse
        · rw [sameEdge_swap_left e (a, b)]
          exact hse
    · rintro ⟨p, hp, hpab⟩
      rw [Graph.edgesSorted, List.mem_insertionSort] at hp
      rcases List.mem_map.1 hp with ⟨e, he, rfl⟩
      apply Graph.hasEdge_iff.2
      refine ⟨e, he, ?_⟩
      revert hpab
      unfold Graph.reportedEdge
      split
      · exact id
      · rw [sameEdge_swap_left e (a, b)]
        exact id

/-- Witness for C9 (amended): the 1-2 session's edge list. -/
theorem c9_edges_sorted_witness :
    List.Sorted pairLe s12.g.edgesSorted ∧
    s12.g.idxOf (1 : Int) ≤ s12.g.idxOf (2 : Int) ∧
    (s12.g.hasEdge 1 2 = true ↔
        ∃ p ∈ s12.g.edgesSorted, sameEdge p (1, 2) = true) := by
  obtain ⟨h1, h2, h3⟩ := c9_edges_sorted s12.g
  exact ⟨h1, h2 (1, 2) (by decide), h3 1 2⟩

/-- C10: the commit step re-checks presence, so committing a pair that is
already an edge changes neither the model nor the store, and committing the
same pair twice equals committing it once. -/
theorem c10_finalize_idempotent (s : AppState) (u v : Int) :
    (s.g.hasEdge u v = true → finalize_add_edge s u v = s) ∧
    finalize_add_edge (finalize_add_edge s u v) u v = finalize_add_edge s u v := by
  have hpres : ∀ t : AppState, t.g.hasEdge u v = true → finalize_add_edge t u v = t := by
    intro t ht
    unfold finalize_add_edge
    rw [if_pos ht]
  refine ⟨hpres s, ?_⟩
  cases h : s.g.hasEdge u v with
  | true =>
    rw [hpres s h]
    exact hpres s h
  | false =>
    apply hpres
    show (finalize_add_edge s u v).g.hasEdge u v = true
    unfold finalize_add_edge
    rw [if_neg (by simp [h])]
    show (s.g.addEdge u v).hasEdge u v = true
    rw [Graph.hasEdge_addEdge]
    simp [sameEdge_refl]

/-- Witness for C10: re-committing the already-present edge 1-2. -/
theorem c10_finalize_idempotent_witness :
    finalize_add_edge s12 1 2 = s12 ∧
    finalize_add_edge (finalize_add_edge s12 1 2) 1 2 = finalize_add_edge s12 1 2 := by
  obtain ⟨h1, h2⟩ := c10_finalize_idempotent s12 1 2
  exact ⟨h1 (by decide), h2⟩
